import Mathlib

/-!
Shallow embedding of the `configuration` package of emits-io/configuration.

The embedded code is the current package source (the version whose
`Validate` is split into per-entity methods and whose struct fields carry
`omitempty` JSON tags); the older `configuration.go` kept alongside it has
an identical error path in `Load`, which is noted where relevant.

Modelling conventions:
  * Go nil-able pointers (`*Path`, `*Parse`, `*Modify`, `*core.Comment`,
    `*core.CommentBlock`) become `Option _`.
  * Go slices become `List _`, except `Path.Include`, where the code
    distinguishes a nil slice from a present-but-empty one
    (`t.Path.Include == nil`); that field becomes `Option (List String)`
    with `none` = nil.
  * Each `fmt.Errorf` call site becomes one constructor of `VError`
    carrying the format arguments, so equality of `VError` values models
    equality of the produced error messages.
  * `fmt.Sprintf("%v", &x)` formats the address of a local variable as a
    `0x…` token.  The addresses a validation run happens to observe are
    outside the program's control; they are modelled by a stream
    `gen : Nat → String` supplying the formatted pointer used by the n-th
    entity-validation call.  Every Go-formatted pointer is a nonempty
    string (it starts with `0x`), which hypotheses spell as `gen n ≠ ""`.
  * `len(strings.TrimSpace(s)) == 0` is modelled by `isBlank`: the
    string holds only runes of Go's unicode.IsSpace set (the Unicode
    White_Space code points), spelled out in `goIsSpace`.
-/

namespace EmitsConfiguration

/-- core.CommentBlock: block-comment start and end markers. -/
structure CommentBlock where
  Start : String
  End : String
deriving DecidableEq, Repr

/-- core.Comment: a line-comment marker and an optional block marker. -/
structure Comment where
  Line : String
  Block : Option CommentBlock
deriving DecidableEq, Repr

/-- Parse: comment definition plus source-inclusion flag. -/
structure Parse where
  Comment : Option Comment
  Source : Bool
deriving DecidableEq, Repr

/-- Plugin: path to an external transform. -/
structure Plugin where
  Path : String
deriving DecidableEq, Repr

/-- core.RegularExpression: find/replace pair. -/
structure RegularExpression where
  Find : String
  Replace : String
deriving DecidableEq, Repr

/-- Modify: plugin and regex transform lists. -/
structure Modify where
  Plugin : List Plugin
  Regex : List RegularExpression
deriving DecidableEq, Repr

/-- File: type identifiers plus parse and modify rules.  The Go field
is named `Type`, a Lean keyword; it is rendered `Typ` here. -/
structure File where
  Typ : List String
  Parse : Option Parse
  Modify : Option Modify
deriving DecidableEq, Repr

/-- Path: include and exclude pattern lists.  `Include` keeps Go's
nil (`none`) / present (`some`) distinction because `Task.Validate`
tests `t.Path.Include == nil`. -/
structure Path where
  Include : Option (List String)
  Exclude : List String
deriving DecidableEq, Repr

/-- Task: a name and an optional path definition. -/
structure Task where
  Name : String
  Path : Option Path
deriving DecidableEq, Repr

/-- Script: a name and a list of task-name references. -/
structure Script where
  Name : String
  Task : List String
deriving DecidableEq, Repr

/-- Configuration: document root. -/
structure Configuration where
  Name : String
  Description : String
  Author : String
  License : String
  Version : String
  Task : List Task
  Script : List Script
  File : List File
deriving DecidableEq, Repr

/-- One validation error value.  Each constructor is one `fmt.Errorf`
call site in the package's validation code, carrying the format
arguments that vary (entity label, referenced name, index). -/
inductive VError where
  | missingTaskDefinition
  | missingFileDefinition
  | fileMissingType (label : String)
  | fileMissingParse (label : String)
  | fileMissingParseComment (label : String)
  | fileMissingBlockStart (label : String)
  | fileMissingBlockEnd (label : String)
  | filePluginPathEmpty (label : String) (i : Nat)
  | fileRegexFindEmpty (label : String) (i : Nat)
  | taskMissingName (name : String)
  | taskMissingPath (name : String)
  | taskMissingPathInclude (name : String)
  | taskIncludeEmpty (name : String) (i : Nat)
  | taskExcludeEmpty (name : String) (i : Nat)
  | scriptMissingName (name : String)
  | scriptMissingTask (name : String)
  | scriptDuplicateTask (name : String) (task : String)
  | scriptUnknownTask (name : String) (task : String)
deriving DecidableEq, Repr

/-- strings.Join(xs, ","). -/
def joinComma (xs : List String) : String :=
  String.intercalate "," xs

/-- unicode.IsSpace: the Unicode White_Space code points, the exact set
Go's strings.TrimSpace trims (U+0009-U+000D, space, NEL, NBSP, ogham
space mark, the U+2000-U+200A spaces, the line and paragraph
separators, narrow no-break space, medium mathematical space and
ideographic space). -/
def goIsSpace (c : Char) : Bool :=
  decide ((0x09 ≤ c.toNat ∧ c.toNat ≤ 0x0D) ∨ c.toNat = 0x20 ∨ c.toNat = 0x85
    ∨ c.toNat = 0xA0 ∨ c.toNat = 0x1680 ∨ (0x2000 ≤ c.toNat ∧ c.toNat ≤ 0x200A)
    ∨ c.toNat = 0x2028 ∨ c.toNat = 0x2029 ∨ c.toNat = 0x202F ∨ c.toNat = 0x205F
    ∨ c.toNat = 0x3000)

/-- len(strings.TrimSpace(s)) == 0.  TrimSpace removes leading and
trailing white space, so the result is empty exactly when every rune of
the string is white space (vacuously for the empty string). -/
def isBlank (s : String) : Bool :=
  s.data.all goIsSpace

/-- Configuration.FindTask: first task whose name equals the argument. -/
def Configuration.FindTask (c : Configuration) (name : String) : Option EmitsConfiguration.Task :=
  c.Task.find? (fun t => t.Name == name)

/-- Configuration.FindScript: first script whose name equals the argument. -/
def Configuration.FindScript (c : Configuration) (name : String) : Option EmitsConfiguration.Script :=
  c.Script.find? (fun s => s.Name == name)

/-- Configuration.ValidateTaskDefinitionExists. -/
def Configuration.ValidateTaskDefinitionExists (c : Configuration) : Option VError :=
  if c.Task.length = 0 then some VError.missingTaskDefinition else none

/-- Configuration.ValidateFileDefinitionExists. -/
def Configuration.ValidateFileDefinitionExists (c : Configuration) : Option VError :=
  if c.File.length = 0 then some VError.missingFileDefinition else none

/-- Parse.Validate.  The receiver is a possibly-nil `*Parse`, so it is
taken as `Option Parse`; `f` is the enclosing file, used for the label. -/
def Parse.Validate (p : Option Parse) (f : File) : List VError :=
  match p with
  | none => [VError.fileMissingParse (joinComma f.Typ)]
  | some p =>
    match p.Comment with
    | none => [VError.fileMissingParseComment (joinComma f.Typ)]
    | some cm =>
      if cm.Line.length = 0 ∧ cm.Block = none then
        [VError.fileMissingParseComment (joinComma f.Typ)]
      else
        match cm.Block with
        | none => []
        | some b =>
          (if b.Start.length = 0 then [VError.fileMissingBlockStart (joinComma f.Typ)] else [])
            ++ (if b.End.length = 0 then [VError.fileMissingBlockEnd (joinComma f.Typ)] else [])

/-- The indexed plugin-path loop of File.Validate. -/
def pluginErrors (label : String) : Nat → List Plugin → List VError
  | _, [] => []
  | i, p :: rest =>
    (if p.Path.length = 0 then [VError.filePluginPathEmpty label i] else [])
      ++ pluginErrors label (i + 1) rest

/-- The indexed regex-find loop of File.Validate. -/
def regexErrors (label : String) : Nat → List RegularExpression → List VError
  | _, [] => []
  | i, r :: rest =>
    (if r.Find.length = 0 then [VError.fileRegexFindEmpty label i] else [])
      ++ regexErrors label (i + 1) rest

/-- The part of File.Validate after the type-placeholder step: the
parse check, then the modify plugin and regex loops, all reading the
(possibly already mutated) receiver. -/
def fileBodyErrors (f : File) : List VError :=
  Parse.Validate f.Parse f
    ++ (match f.Modify with
        | none => []
        | some m =>
          pluginErrors (joinComma f.Typ) 0 m.Plugin ++ regexErrors (joinComma f.Typ) 0 m.Regex)

/-- File.Validate.  `ptr` is the formatted address the call observes
(`fmt.Sprintf("%v", &f)`), used as the placeholder type when the type
list is empty; the returned file is the in-place-mutated receiver. -/
def File.Validate (ptr : String) (f0 : File) : File × List VError :=
  let f : File := if f0.Typ.length = 0 then { f0 with Typ := [ptr] } else f0
  let e1 : List VError :=
    if f0.Typ.length = 0 then [VError.fileMissingType (joinComma [ptr])] else []
  (f, e1 ++ fileBodyErrors f)

/-- The indexed include loop of Task.Validate. -/
def includeErrors (name : String) : Nat → List String → List VError
  | _, [] => []
  | i, x :: rest =>
    (if isBlank x then [VError.taskIncludeEmpty name i] else [])
      ++ includeErrors name (i + 1) rest

/-- The indexed exclude loop of Task.Validate. -/
def excludeErrors (name : String) : Nat → List String → List VError
  | _, [] => []
  | i, x :: rest =>
    (if isBlank x then [VError.taskExcludeEmpty name i] else [])
      ++ excludeErrors name (i + 1) rest

/-- The path checks of Task.Validate, reading the (possibly already
renamed) receiver: a nil path is one error; a present path is checked
for a nil Include, then each include and exclude entry for blankness;
ranging over a nil `Include` slice visits nothing, hence `getD []`. -/
def taskPathErrors (t : Task) : List VError :=
  match t.Path with
  | some p =>
    (if p.Include = none then [VError.taskMissingPathInclude t.Name] else [])
      ++ includeErrors t.Name 0 (p.Include.getD [])
      ++ excludeErrors t.Name 0 p.Exclude
  | none => [VError.taskMissingPath t.Name]

/-- Task.Validate.  `ptr` is the formatted address the call observes,
assigned as placeholder name when the name is empty. -/
def Task.Validate (ptr : String) (t0 : Task) : Task × List VError :=
  let t : Task := if t0.Name.length = 0 then { t0 with Name := ptr } else t0
  let e1 : List VError :=
    if t0.Name.length = 0 then [VError.taskMissingName ptr] else []
  (t, e1 ++ taskPathErrors t)

/-- The reference loop of Script.Validate: scan in order with a seen
list; a rescanned reference is a duplicate, an unresolvable one is
unknown, and the two checks are independent. -/
def scriptTaskErrors (sname : String) (c : Configuration) :
    List String → List String → List VError
  | [], _ => []
  | task :: rest, seen =>
    let dup :=
      if seen.contains task then [VError.scriptDuplicateTask sname task] else []
    let seen' := if seen.contains task then seen else seen ++ [task]
    let unk :=
      if (c.FindTask task).isNone then [VError.scriptUnknownTask sname task] else []
    dup ++ unk ++ scriptTaskErrors sname c rest seen'

/-- The reference checks of Script.Validate, reading the (possibly
already renamed) receiver. -/
def scriptBodyErrors (c : Configuration) (s : Script) : List VError :=
  if s.Task.length = 0 then
    [VError.scriptMissingTask s.Name]
  else
    scriptTaskErrors s.Name c s.Task []

/-- Script.Validate.  `ptr` is the formatted address the call observes,
assigned as placeholder name when the name is empty; `c` is the
configuration used for reference resolution. -/
def Script.Validate (ptr : String) (c : Configuration) (s0 : Script) : Script × List VError :=
  let s : Script := if s0.Name.length = 0 then { s0 with Name := ptr } else s0
  let e1 : List VError :=
    if s0.Name.length = 0 then [VError.scriptMissingName ptr] else []
  (s, e1 ++ scriptBodyErrors c s)

/-- The task loop of Configuration.Validate: each element is validated
(and possibly mutated) in place, with `gen i` the formatted pointer the
i-th call observes. -/
def validateTasks (gen : Nat → String) : Nat → List Task → List Task × List VError
  | _, [] => ([], [])
  | i, t :: rest =>
    let r := Task.Validate (gen i) t
    let rs := validateTasks gen (i + 1) rest
    (r.1 :: rs.1, r.2 ++ rs.2)

/-- The file loop of Configuration.Validate. -/
def validateFiles (gen : Nat → String) : Nat → List File → List File × List VError
  | _, [] => ([], [])
  | i, f :: rest =>
    let r := File.Validate (gen i) f
    let rs := validateFiles gen (i + 1) rest
    (r.1 :: rs.1, r.2 ++ rs.2)

/-- The script loop of Configuration.Validate.  The configuration `c`
passed to each Script.Validate already carries the task names assigned
by the earlier task loop. -/
def validateScripts (gen : Nat → String) (c : Configuration) :
    Nat → List Script → List Script × List VError
  | _, [] => ([], [])
  | i, s :: rest =>
    let r := Script.Validate (gen i) c s
    let rs := validateScripts gen c (i + 1) rest
    (r.1 :: rs.1, r.2 ++ rs.2)

/-- Configuration.Validate: the two existence checks, then task, file
and script validation in that order, accumulating every error.  The
receiver is mutated in place, so the result pairs the updated
configuration with the error list.  `gen` supplies the formatted local
pointers the nested calls observe (the index offsets only keep the
calls distinct; no branch reads more than its own entry). -/
def Configuration.Validate (gen : Nat → String) (c : Configuration) :
    Configuration × List VError :=
  let e1 := c.ValidateTaskDefinitionExists.toList
  let e2 := c.ValidateFileDefinitionExists.toList
  let tr := validateTasks gen 0 c.Task
  let c1 : Configuration := { c with Task := tr.1 }
  let fr := validateFiles gen c.Task.length c1.File
  let c2 : Configuration := { c1 with File := fr.1 }
  let sr := validateScripts gen c2 (c.Task.length + c.File.length) c2.Script
  ({ c2 with Script := sr.1 }, e1 ++ e2 ++ tr.2 ++ fr.2 ++ sr.2)

/-- Configuration.Load.  The file system and the JSON scanner are Go
standard-library code outside this repository, so the outcomes of
os.Open, ioutil.ReadAll and json.Unmarshal are parameters: `some e`
models a non-nil Go error `e`, `none` models nil.  The body mirrors the
source line by line; in the unmarshal branch the source executes
`return err`, and `err` there still holds ReadAll's error, which is nil
on that path.  The older configuration.go has the identical error path. -/
def Configuration.Load (openErr readErr unmarshalErr : Option String) : Option String :=
  match openErr with
  | some e => some e
  | none =>
    match readErr with
    | some e => some e
    | none =>
      if unmarshalErr.isSome then
        none
      else
        none

/-!
The document layer for Write and Load.

Modelled from the spec: the JSON text layer — MarshalIndent's rendering
to bytes inside `Configuration.Write`, the scanner inside
json.Unmarshal used by `Configuration.Load`, and the emits.json file
transporting the bytes between them — is Go standard-library and file
system behavior, not code of this repository.  The document is
therefore modelled at the JSON value level: `marshal…` captures
MarshalIndent over the entity model with its `omitempty` struct tags (a
zero field — empty string, length-zero slice, nil pointer, false — is
omitted; every field name is the lower-case tag from the source, and
the tags of the external core.Comment, core.CommentBlock and
core.RegularExpression values follow the same convention per the spec's
document-format section), and `decode…` captures json.Unmarshal into a
fresh zero instance (a missing field leaves the zero value, a field of
the wrong shape is a terminal error, `none`).
-/

/-- A JSON value, the abstract form of the document text. -/
inductive JValue where
  | str (s : String)
  | boolean (b : Bool)
  | arr (elems : List JValue)
  | obj (fields : List (String × JValue))

/-- An omitempty string field: omitted when empty. -/
def marshalStringField (name val : String) : List (String × JValue) :=
  if val = "" then [] else [(name, JValue.str val)]

/-- An omitempty bool field: omitted when false. -/
def marshalBoolField (name : String) (b : Bool) : List (String × JValue) :=
  if b then [(name, JValue.boolean b)] else []

/-- An omitempty slice field: omitted when of length zero. -/
def marshalList (name : String) (enc : α → JValue) (xs : List α) : List (String × JValue) :=
  if xs.length = 0 then [] else [(name, JValue.arr (xs.map enc))]

/-- An omitempty pointer field: omitted when nil. -/
def marshalOpt (name : String) (enc : α → JValue) : Option α → List (String × JValue)
  | none => []
  | some a => [(name, enc a)]

/-- core.CommentBlock as a JSON object. -/
def marshalCommentBlock (b : CommentBlock) : JValue :=
  JValue.obj (marshalStringField "start" b.Start ++ marshalStringField "end" b.End)

/-- core.Comment as a JSON object. -/
def marshalComment (cm : Comment) : JValue :=
  JValue.obj (marshalStringField "line" cm.Line
    ++ marshalOpt "block" marshalCommentBlock cm.Block)

/-- Parse as a JSON object. -/
def marshalParse (p : Parse) : JValue :=
  JValue.obj (marshalOpt "comment" marshalComment p.Comment
    ++ marshalBoolField "source" p.Source)

/-- Plugin as a JSON object. -/
def marshalPlugin (pl : Plugin) : JValue :=
  JValue.obj (marshalStringField "path" pl.Path)

/-- core.RegularExpression as a JSON object. -/
def marshalRegex (r : RegularExpression) : JValue :=
  JValue.obj (marshalStringField "find" r.Find ++ marshalStringField "replace" r.Replace)

/-- Modify as a JSON object. -/
def marshalModify (m : Modify) : JValue :=
  JValue.obj (marshalList "plugin" marshalPlugin m.Plugin
    ++ marshalList "regex" marshalRegex m.Regex)

/-- File as a JSON object. -/
def marshalFile (f : File) : JValue :=
  JValue.obj (marshalList "type" JValue.str f.Typ
    ++ (marshalOpt "parse" marshalParse f.Parse
      ++ marshalOpt "modify" marshalModify f.Modify))

/-- Path as a JSON object.  A nil Include and a present-but-empty one
marshal identically — omitempty omits any length-zero slice — so the
Include block is the slice block of the underlying list, `[]` when nil. -/
def marshalPath (p : Path) : JValue :=
  JValue.obj (marshalList "include" JValue.str (p.Include.getD [])
    ++ marshalList "exclude" JValue.str p.Exclude)

/-- Task as a JSON object. -/
def marshalTask (t : Task) : JValue :=
  JValue.obj (marshalStringField "name" t.Name ++ marshalOpt "path" marshalPath t.Path)

/-- Script as a JSON object. -/
def marshalScript (s : Script) : JValue :=
  JValue.obj (marshalStringField "name" s.Name ++ marshalList "task" JValue.str s.Task)

/-- Configuration as a JSON object: the entire document written by
Configuration.Write, fields in struct order. -/
def marshalConfiguration (c : Configuration) : JValue :=
  JValue.obj (marshalStringField "name" c.Name
    ++ (marshalStringField "description" c.Description
      ++ (marshalStringField "author" c.Author
        ++ (marshalStringField "license" c.License
          ++ (marshalStringField "version" c.Version
            ++ (marshalList "task" marshalTask c.Task
              ++ (marshalList "script" marshalScript c.Script
                ++ marshalList "file" marshalFile c.File)))))))

/-- First value stored under a field name, if any. -/
def getField (fs : List (String × JValue)) (name : String) : Option JValue :=
  (fs.find? (fun kv => kv.1 == name)).map (fun kv => kv.2)

/-- A string field: absent keeps the zero value, a non-string shape is
an unmarshal error. -/
def decodeStringField (fs : List (String × JValue)) (name : String) : Option String :=
  match getField fs name with
  | none => some ""
  | some (JValue.str s) => some s
  | some _ => none

/-- A bool field: absent keeps false. -/
def decodeBoolField (fs : List (String × JValue)) (name : String) : Option Bool :=
  match getField fs name with
  | none => some false
  | some (JValue.boolean b) => some b
  | some _ => none

/-- json.Unmarshal of an array, element by element, failing on the
first element of the wrong shape. -/
def decodeList (dec : JValue → Option α) : List JValue → Option (List α)
  | [] => some []
  | v :: rest => do
    let a ← dec v
    let as ← decodeList dec rest
    pure (a :: as)

/-- A slice field: absent keeps the nil slice (modelled `[]`). -/
def decodeListField (dec : JValue → Option α) (fs : List (String × JValue))
    (name : String) : Option (List α) :=
  match getField fs name with
  | none => some []
  | some (JValue.arr xs) => decodeList dec xs
  | some _ => none

/-- A slice field keeping the nil/present distinction (Path.Include):
absent stays nil, a present array — even an empty one — is non-nil. -/
def decodeOptListField (dec : JValue → Option α) (fs : List (String × JValue))
    (name : String) : Option (Option (List α)) :=
  match getField fs name with
  | none => some none
  | some (JValue.arr xs) => (decodeList dec xs).map some
  | some _ => none

/-- A pointer field: absent stays nil. -/
def decodeOptField (dec : JValue → Option α) (fs : List (String × JValue))
    (name : String) : Option (Option α) :=
  match getField fs name with
  | none => some none
  | some v => (dec v).map some

/-- json.Unmarshal of a string element. -/
def decodeStr : JValue → Option String
  | JValue.str s => some s
  | _ => none

/-- json.Unmarshal into core.CommentBlock. -/
def decodeCommentBlock : JValue → Option CommentBlock
  | JValue.obj fs => do
    let s ← decodeStringField fs "start"
    let e ← decodeStringField fs "end"
    pure { Start := s, End := e }
  | _ => none

/-- json.Unmarshal into core.Comment. -/
def decodeComment : JValue → Option Comment
  | JValue.obj fs => do
    let l ← decodeStringField fs "line"
    let b ← decodeOptField decodeCommentBlock fs "block"
    pure { Line := l, Block := b }
  | _ => none

/-- json.Unmarshal into Parse. -/
def decodeParse : JValue → Option Parse
  | JValue.obj fs => do
    let cm ← decodeOptField decodeComment fs "comment"
    let src ← decodeBoolField fs "source"
    pure { Comment := cm, Source := src }
  | _ => none

/-- json.Unmarshal into Plugin. -/
def decodePlugin : JValue → Option Plugin
  | JValue.obj fs => do
    let p ← decodeStringField fs "path"
    pure { Path := p }
  | _ => none

/-- json.Unmarshal into core.RegularExpression. -/
def decodeRegex : JValue → Option RegularExpression
  | JValue.obj fs => do
    let fi ← decodeStringField fs "find"
    let re ← decodeStringField fs "replace"
    pure { Find := fi, Replace := re }
  | _ => none

/-- json.Unmarshal into Modify. -/
def decodeModify : JValue → Option Modify
  | JValue.obj fs => do
    let pl ← decodeListField decodePlugin fs "plugin"
    let re ← decodeListField decodeRegex fs "regex"
    pure { Plugin := pl, Regex := re }
  | _ => none

/-- json.Unmarshal into File. -/
def decodeFile : JValue → Option File
  | JValue.obj fs => do
    let ty ← decodeListField decodeStr fs "type"
    let pa ← decodeOptField decodeParse fs "parse"
    let mo ← decodeOptField decodeModify fs "modify"
    pure { Typ := ty, Parse := pa, Modify := mo }
  | _ => none

/-- json.Unmarshal into Path. -/
def decodePath : JValue → Option Path
  | JValue.obj fs => do
    let inc ← decodeOptListField decodeStr fs "include"
    let exc ← decodeListField decodeStr fs "exclude"
    pure { Include := inc, Exclude := exc }
  | _ => none

/-- json.Unmarshal into Task. -/
def decodeTask : JValue → Option Task
  | JValue.obj fs => do
    let n ← decodeStringField fs "name"
    let p ← decodeOptField decodePath fs "path"
    pure { Name := n, Path := p }
  | _ => none

/-- json.Unmarshal into Script. -/
def decodeScript : JValue → Option Script
  | JValue.obj fs => do
    let n ← decodeStringField fs "name"
    let ts ← decodeListField decodeStr fs "task"
    pure { Name := n, Task := ts }
  | _ => none

/-- json.Unmarshal of the whole document into a fresh Configuration. -/
def decodeConfiguration : JValue → Option Configuration
  | JValue.obj fs => do
    let n ← decodeStringField fs "name"
    let d ← decodeStringField fs "description"
    let a ← decodeStringField fs "author"
    let li ← decodeStringField fs "license"
    let v ← decodeStringField fs "version"
    let ts ← decodeListField decodeTask fs "task"
    let ss ← decodeListField decodeScript fs "script"
    let fls ← decodeListField decodeFile fs "file"
    pure { Name := n, Description := d, Author := a, License := li, Version := v
         , Task := ts, Script := ss, File := fls }
  | _ => none

/-- What one Write/Load round trip makes of an Include slice: a
present-but-empty one is written as nothing (omitempty) and read back
as nil; nil and non-empty ones survive unchanged. -/
def normInclude : Option (List String) → Option (List String)
  | some [] => none
  | x => x

/-- What one Write/Load round trip makes of a Path. -/
def normPath (p : Path) : Path :=
  { p with Include := normInclude p.Include }

/-- What one Write/Load round trip makes of a Task. -/
def normTask (t : Task) : Task :=
  { t with Path := t.Path.map normPath }

/-- What one Write/Load round trip makes of a Configuration. -/
def normConfiguration (c : Configuration) : Configuration :=
  { c with Task := c.Task.map normTask }

/-- Field-wise agreement of a reloaded configuration `c'` with the
original `c` on every non-empty field: all metadata, the script and
file sequences, and each task's name, with each present path agreeing
on excludes and on any non-empty include list. -/
def RoundTripAgrees (c c' : Configuration) : Prop :=
  c'.Name = c.Name ∧ c'.Description = c.Description ∧ c'.Author = c.Author
    ∧ c'.License = c.License ∧ c'.Version = c.Version
    ∧ c'.Script = c.Script ∧ c'.File = c.File
    ∧ List.Forall₂ (fun t t' => t'.Name = t.Name
        ∧ ∀ p, t.Path = some p → ∃ p', t'.Path = some p'
            ∧ p'.Exclude = p.Exclude
            ∧ ∀ l, p.Include = some l → l ≠ [] → p'.Include = some l)
        c.Task c'.Task

/-- No entity of the configuration is anonymous: every task and script
carries a name and every file a type list. -/
def NoAnonymous (c : Configuration) : Prop :=
  (∀ t ∈ c.Task, t.Name ≠ "") ∧ (∀ s ∈ c.Script, s.Name ≠ "")
    ∧ (∀ f ∈ c.File, f.Typ ≠ [])

/-- The end-to-end valid configuration of the spec's testable
properties: one task `t`, one file for `go` with a line comment, one
script `s` referencing `t`. -/
def demoValid : Configuration :=
  { Name := "", Description := "", Author := "", License := "", Version := ""
  , Task := [{ Name := "t", Path := some { Include := some ["*"], Exclude := [] } }]
  , Script := [{ Name := "s", Task := ["t"] }]
  , File := [{ Typ := ["go"]
             , Parse := some { Comment := some { Line := "//", Block := none }, Source := false }
             , Modify := none }] }

/-- A configuration whose single task is anonymous and otherwise valid. -/
def demoAnonTask : Configuration :=
  { demoValid with Task := [{ Name := "", Path := some { Include := some ["*"], Exclude := [] } }] }

/-- A configuration holding one task named `a`, for exercising script
reference resolution. -/
def demoTaskA : Configuration :=
  { Name := "", Description := "", Author := "", License := "", Version := ""
  , Task := [{ Name := "a", Path := some { Include := some ["*"], Exclude := [] } }]
  , Script := [], File := [] }

/-- A concrete stream of formatted pointers, shaped like the `0x…`
tokens Go's `%v` produces for addresses. -/
def demoGen : Nat → String := fun n => "0xc0000" ++ toString n

/-- A configuration with an anonymous task and a script referencing the
empty string, otherwise well-formed. -/
def demoAnonRef : Configuration :=
  { demoValid with
      Task := [{ Name := "", Path := some { Include := some ["*"], Exclude := [] } }]
    , Script := [{ Name := "x", Task := [""] }] }

/-- The errors the task loop contributes when no task is anonymous: the
placeholder branch never fires, so each call contributes exactly its
path errors, independent of the observed pointers. -/
def pureTaskErrors : List Task → List VError
  | [] => []
  | t :: rest => taskPathErrors t ++ pureTaskErrors rest

/-- The errors the file loop contributes when no file lacks a type. -/
def pureFileErrors : List File → List VError
  | [] => []
  | f :: rest => fileBodyErrors f ++ pureFileErrors rest

/-- The errors the script loop contributes when no script is anonymous. -/
def pureScriptErrors (c : Configuration) : List Script → List VError
  | [] => []
  | s :: rest => scriptBodyErrors c s ++ pureScriptErrors c rest

end EmitsConfiguration

namespace EmitsConfiguration

/-- A Go `len(s) == 0` test on a string is the equality test with `""`. -/
theorem string_length_zero_iff (s : String) : s.length = 0 ↔ s = "" := by
  cases s with
  | mk data => cases data <;> simp [String.length, String.ext_iff]

/-- Task.Validate with its name step spelled out. -/
theorem taskValidate_eq (ptr : String) (t0 : Task) :
    Task.Validate ptr t0 =
      (if t0.Name.length = 0 then { t0 with Name := ptr } else t0,
        (if t0.Name.length = 0 then [VError.taskMissingName ptr] else [])
          ++ taskPathErrors (if t0.Name.length = 0 then { t0 with Name := ptr } else t0)) :=
  rfl

/-- File.Validate with its type step spelled out. -/
theorem fileValidate_eq (ptr : String) (f0 : File) :
    File.Validate ptr f0 =
      (if f0.Typ.length = 0 then { f0 with Typ := [ptr] } else f0,
        (if f0.Typ.length = 0 then [VError.fileMissingType (joinComma [ptr])] else [])
          ++ fileBodyErrors (if f0.Typ.length = 0 then { f0 with Typ := [ptr] } else f0)) :=
  rfl

/-- Script.Validate with its name step spelled out. -/
theorem scriptValidate_eq (ptr : String) (c : Configuration) (s0 : Script) :
    Script.Validate ptr c s0 =
      (if s0.Name.length = 0 then { s0 with Name := ptr } else s0,
        (if s0.Name.length = 0 then [VError.scriptMissingName ptr] else [])
          ++ scriptBodyErrors c (if s0.Name.length = 0 then { s0 with Name := ptr } else s0)) :=
  rfl

/-- Counting an element inside a conditional singleton of a different
value gives zero. -/
theorem count_ite_singleton_ne {P : Prop} [Decidable P] (x y : VError) (h : ¬ x = y) :
    (if P then [x] else []).count y = 0 := by
  split <;> simp [List.count_cons, h]

/-- Duplicate-error count of the reference scan of Script.Validate: one
error for every occurrence of a reference beyond the first unseen one. -/
theorem scriptTaskErrors_count_dup (sname : String) (c : Configuration) (tsk : String) :
    ∀ (refs seen : List String),
      (scriptTaskErrors sname c refs seen).count (VError.scriptDuplicateTask sname tsk)
        = (if seen.contains tsk then refs.count tsk else refs.count tsk - 1) := by
  intro refs
  induction refs with
  | nil => intro seen; simp [scriptTaskErrors]
  | cons hd tl ih =>
    intro seen
    by_cases hseen : hd ∈ seen
    · by_cases heq : hd = tsk
      · subst heq
        simp [scriptTaskErrors, hseen, List.count_append, List.count_cons, ih,
          count_ite_singleton_ne]
      · have heq' : ¬ tsk = hd := fun h => heq h.symm
        simp [scriptTaskErrors, hseen, List.count_append, List.count_cons, ih,
          count_ite_singleton_ne, heq, heq']
    · by_cases heq : hd = tsk
      · subst heq
        simp [scriptTaskErrors, hseen, List.count_append, List.count_cons, ih,
          count_ite_singleton_ne]
      · have heq' : ¬ tsk = hd := fun h => heq h.symm
        simp [scriptTaskErrors, hseen, List.count_append, List.count_cons, ih,
          count_ite_singleton_ne, heq, heq']

/-- Unknown-error count of the reference scan of Script.Validate: one
error for every occurrence of a reference that does not resolve,
independent of the seen set. -/
theorem scriptTaskErrors_count_unknown (sname : String) (c : Configuration) (tsk : String) :
    ∀ (refs seen : List String),
      (scriptTaskErrors sname c refs seen).count (VError.scriptUnknownTask sname tsk)
        = (if (c.FindTask tsk).isNone then refs.count tsk else 0) := by
  intro refs
  induction refs with
  | nil => intro seen; simp [scriptTaskErrors]
  | cons hd tl ih =>
    intro seen
    by_cases heq : hd = tsk
    · subst heq
      by_cases hfind : c.FindTask hd = none
      · simp [scriptTaskErrors, hfind, List.count_append, List.count_cons, ih,
          count_ite_singleton_ne]
      · simp [scriptTaskErrors, hfind, List.count_append, List.count_cons, ih,
          count_ite_singleton_ne]
    · have heq' : ¬ tsk = hd := fun h => heq h.symm
      simp [scriptTaskErrors, List.count_append, List.count_cons, ih,
        count_ite_singleton_ne, heq, heq']

end EmitsConfiguration

namespace EmitsConfiguration

/-- Claim C2 (code bug): when the document opens and reads cleanly but
json.Unmarshal rejects the content (a non-nil unmarshal outcome), Load
returns nil — success — because the `return err` in the unmarshal
branch returns the variable still holding ReadAll's nil error, instead
of the parse error the claim (and the surrounding code) expects. -/
theorem C2_load_parse_error_yields_success :
    Configuration.Load none none (some "unexpected end of JSON input") = none :=
  rfl

/-- Claim C3: Script.Validate scans a non-empty reference list in order
with a seen set; duplicate errors number one per duplicate occurrence
(occurrences beyond the first), unknown errors number one per
occurrence of an unresolvable reference, the checks are independent,
and the concrete script with references `a, a` against a task list
containing `a` yields exactly one duplicate error and nothing else. -/
theorem C3_script_reference_scan (ptr : String) (c : Configuration) (s : Script)
    (hs : s.Task ≠ []) :
    (∀ tsk, ((Script.Validate ptr c s).2).count
        (VError.scriptDuplicateTask ((Script.Validate ptr c s).1).Name tsk)
      = s.Task.count tsk - 1)
    ∧ (∀ tsk, ((Script.Validate ptr c s).2).count
        (VError.scriptUnknownTask ((Script.Validate ptr c s).1).Name tsk)
      = (if (c.FindTask tsk).isNone then s.Task.count tsk else 0))
    ∧ Script.Validate "0xc00000" demoTaskA { Name := "s", Task := ["a", "a"] }
      = ({ Name := "s", Task := ["a", "a"] }, [VError.scriptDuplicateTask "s" "a"]) := by
  refine ⟨?_, ?_, rfl⟩
  · intro tsk
    by_cases h : s.Name.length = 0 <;>
      simp [Script.Validate, scriptBodyErrors, h, hs, List.length_eq_zero,
        List.count_append, List.count_cons, scriptTaskErrors_count_dup]
  · intro tsk
    by_cases h : s.Name.length = 0 <;>
      simp [Script.Validate, scriptBodyErrors, h, hs, List.length_eq_zero,
        List.count_append, List.count_cons, scriptTaskErrors_count_unknown]

/-- Witness for C3 at a concrete script and configuration. -/
theorem C3_witness :
    (["a", "a"] : List String) ≠ []
    ∧ ((Script.Validate "0xc00000" demoTaskA { Name := "s", Task := ["a", "a"] }).2).count
        (VError.scriptDuplicateTask "s" "a") = 1
    ∧ ((Script.Validate "0xc00000" demoTaskA { Name := "s", Task := ["a", "a"] }).2).count
        (VError.scriptUnknownTask "s" "a") = 0 := by
  have h := C3_script_reference_scan "0xc00000" demoTaskA
    { Name := "s", Task := ["a", "a"] } (by decide)
  exact ⟨by decide, (h.1 "a").trans (by decide), (h.2.1 "a").trans (by decide)⟩

/-- Claim C4: Parse validation accepts a non-empty line marker alone
and a block marker with both ends, rejects a block marker missing
exactly one of start/end with precisely the corresponding error, and on
the concrete empty-line, start-only block produces exactly one
missing-block-comment-end error. -/
theorem C4_parse_comment_validation :
    (∀ (f : File) (line : String) (src : Bool), line ≠ "" →
        Parse.Validate (some { Comment := some { Line := line, Block := none }, Source := src }) f
          = [])
    ∧ (∀ (f : File) (src : Bool) (b : CommentBlock) (line : String),
        b.Start ≠ "" → b.End ≠ "" →
        Parse.Validate (some { Comment := some { Line := line, Block := some b }, Source := src }) f
          = [])
    ∧ (∀ (f : File) (src : Bool) (b : CommentBlock) (line : String),
        b.Start = "" → b.End ≠ "" →
        Parse.Validate (some { Comment := some { Line := line, Block := some b }, Source := src }) f
          = [VError.fileMissingBlockStart (joinComma f.Typ)])
    ∧ (∀ (f : File) (src : Bool) (b : CommentBlock) (line : String),
        b.Start ≠ "" → b.End = "" →
        Parse.Validate (some { Comment := some { Line := line, Block := some b }, Source := src }) f
          = [VError.fileMissingBlockEnd (joinComma f.Typ)])
    ∧ (∀ (f : File) (src : Bool),
        Parse.Validate
          (some { Comment := some { Line := ""
                                  , Block := some { Start := "/*", End := "" } }, Source := src }) f
          = [VError.fileMissingBlockEnd (joinComma f.Typ)]) := by
  refine ⟨?_, ?_, ?_, ?_, ?_⟩
  · intro f line src h
    simp [Parse.Validate, string_length_zero_iff, h]
  · intro f src b line h1 h2
    simp [Parse.Validate, string_length_zero_iff, h1, h2]
  · intro f src b line h1 h2
    simp [Parse.Validate, string_length_zero_iff, h1, h2]
  · intro f src b line h1 h2
    simp [Parse.Validate, string_length_zero_iff, h1, h2]
  · intro f src
    simp [Parse.Validate, string_length_zero_iff]

/-- Witness for C4 at a concrete file and comment definitions. -/
theorem C4_witness :
    Parse.Validate (some { Comment := some { Line := "//", Block := none }, Source := false })
        { Typ := ["go"], Parse := none, Modify := none } = []
    ∧ Parse.Validate
        (some { Comment := some { Line := ""
                                , Block := some { Start := "/*", End := "" } }, Source := false })
        { Typ := ["go"], Parse := none, Modify := none }
      = [VError.fileMissingBlockEnd "go"] := by
  have h1 := C4_parse_comment_validation.1
    { Typ := ["go"], Parse := none, Modify := none } "//" false (by decide)
  have h5 := C4_parse_comment_validation.2.2.2.2
    { Typ := ["go"], Parse := none, Modify := none } false
  exact ⟨h1, h5.trans (by decide)⟩

/-- Claim C5 (counterexample): a named task whose path is present and
whose Include list is present but has zero entries — so it contains no
non-blank entry — validates with zero errors, against the claim that at
least one error is emitted. -/
theorem C5_counterexample_present_empty_include :
    (Task.Validate "0xc00000"
        { Name := "t", Path := some { Include := some [], Exclude := [] } }).2 = [] :=
  rfl

/-- The exclude loop is silent when no entry is blank. -/
theorem excludeErrors_nil_of_nonblank (nm : String) :
    ∀ (l : List String) (i : Nat), (∀ x ∈ l, isBlank x = false) →
      excludeErrors nm i l = [] := by
  intro l
  induction l with
  | nil => intro i _; rfl
  | cons x rest ih =>
    intro i h
    have hx : isBlank x = false := h x (by simp)
    simp [excludeErrors, hx, ih (i + 1) (fun y hy => h y (by simp [hy]))]

/-- Claim C5 (amended): for every task whose path is present and whose
Include list contains no non-blank entry, Validate emits at least one
error for that task, except when the Include list is present with zero
entries; in that excluded case nothing is emitted for the Include at
all — any task with a non-empty name, a present path, a
present-but-empty Include and no blank Exclude entry validates with
zero errors. -/
theorem C5_amended_include_checks :
    (∀ (ptr : String) (t : Task) (p : Path), t.Path = some p →
        (p.Include = none ∨ ∃ l, p.Include = some l ∧ l ≠ [] ∧ ∀ x ∈ l, isBlank x) →
        (Task.Validate ptr t).2 ≠ [])
    ∧ (∀ (ptr : String) (t : Task) (p : Path), t.Name ≠ "" → t.Path = some p →
        p.Include = some [] → (∀ x ∈ p.Exclude, isBlank x = false) →
        (Task.Validate ptr t).2 = []) := by
  constructor
  · intro ptr t p hp h
    by_cases hn : t.Name.length = 0
    · simp [Task.Validate, hn]
    · rcases h with hnone | ⟨l, hl, hne, hblank⟩
      · simp [Task.Validate, hn, taskPathErrors, hp, hnone, List.append_eq_nil]
      · rcases l with _ | ⟨x, xs⟩
        · exact absurd rfl hne
        · have hx : isBlank x = true := hblank x (by simp)
          simp [Task.Validate, hn, taskPathErrors, hp, hl, includeErrors, hx,
            List.append_eq_nil]
  · intro ptr t p hname hp hinc hexc
    have hn : ¬ t.Name.length = 0 := by simpa [string_length_zero_iff] using hname
    simp [Task.Validate, hn, taskPathErrors, hp, hinc, includeErrors,
      excludeErrors_nil_of_nonblank t.Name p.Exclude 0 hexc]

/-- Witness for C5's amended statement: a present path with nil Include
produces an error, and a named task with a present-but-empty Include
and no excludes validates clean. -/
theorem C5_witness :
    (Task.Validate "0xc00000"
        { Name := "t", Path := some { Include := none, Exclude := [] } }).2 ≠ []
    ∧ (Task.Validate "0xc00000"
        { Name := "t", Path := some { Include := some [], Exclude := [] } }).2 = [] :=
  ⟨C5_amended_include_checks.1 "0xc00000"
      { Name := "t", Path := some { Include := none, Exclude := [] } }
      { Include := none, Exclude := [] } rfl (Or.inl rfl),
   C5_amended_include_checks.2 "0xc00000"
      { Name := "t", Path := some { Include := some [], Exclude := [] } }
      { Include := some [], Exclude := [] } (by decide) rfl rfl (by simp)⟩

/-- Claim C6: the configuration with one task `t` (include `*`), one
`go` file with line comment `//`, and one script `s` referencing `t`
validates with zero errors, whatever pointer tokens the run observes. -/
theorem C6_end_to_end_zero_errors (gen : Nat → String) :
    (Configuration.Validate gen demoValid).2 = [] :=
  rfl

end EmitsConfiguration

namespace EmitsConfiguration

/-- A named task is not renamed and its errors ignore the pointer. -/
theorem taskValidate_of_named (ptr : String) (t : Task) (h : t.Name ≠ "") :
    Task.Validate ptr t = (t, taskPathErrors t) := by
  have hn : ¬ t.Name.length = 0 := by simpa [string_length_zero_iff] using h
  simp [Task.Validate, hn]

/-- A typed file is not relabelled and its errors ignore the pointer. -/
theorem File.Validate_of_typed (ptr : String) (f : File) (h : f.Typ ≠ []) :
    File.Validate ptr f = (f, fileBodyErrors f) := by
  have hn : ¬ f.Typ.length = 0 := by simpa [List.length_eq_zero] using h
  simp [File.Validate, hn]

/-- A named script is not renamed and its errors ignore the pointer. -/
theorem scriptValidate_of_named (ptr : String) (c : Configuration) (s : Script)
    (h : s.Name ≠ "") :
    Script.Validate ptr c s = (s, scriptBodyErrors c s) := by
  have hn : ¬ s.Name.length = 0 := by simpa [string_length_zero_iff] using h
  simp [Script.Validate, hn]

/-- Over named tasks the task loop is the identity on the list and its
errors do not depend on the pointer stream or the starting index. -/
theorem validateTasks_of_named (gen : Nat → String) :
    ∀ (ts : List Task), (∀ t ∈ ts, t.Name ≠ "") → ∀ (i : Nat),
      validateTasks gen i ts = (ts, pureTaskErrors ts) := by
  intro ts
  induction ts with
  | nil => intro _ i; simp [validateTasks, pureTaskErrors]
  | cons hd tl ih =>
    intro h i
    have hhd : hd.Name ≠ "" := h hd (by simp)
    have htl : ∀ t ∈ tl, t.Name ≠ "" := fun t ht => h t (by simp [ht])
    simp [validateTasks, pureTaskErrors, taskValidate_of_named (gen i) hd hhd, ih htl (i + 1)]

/-- Over typed files the file loop is the identity on the list and its
errors do not depend on the pointer stream or the starting index. -/
theorem validateFiles_of_typed (gen : Nat → String) :
    ∀ (fs : List File), (∀ f ∈ fs, f.Typ ≠ []) → ∀ (i : Nat),
      validateFiles gen i fs = (fs, pureFileErrors fs) := by
  intro fs
  induction fs with
  | nil => intro _ i; simp [validateFiles, pureFileErrors]
  | cons hd tl ih =>
    intro h i
    have hhd : hd.Typ ≠ [] := h hd (by simp)
    have htl : ∀ f ∈ tl, f.Typ ≠ [] := fun f hf => h f (by simp [hf])
    simp [validateFiles, pureFileErrors, File.Validate_of_typed (gen i) hd hhd, ih htl (i + 1)]

/-- Over named scripts the script loop is the identity on the list and
its errors do not depend on the pointer stream or the starting index. -/
theorem validateScripts_of_named (gen : Nat → String) (c : Configuration) :
    ∀ (ss : List Script), (∀ s ∈ ss, s.Name ≠ "") → ∀ (i : Nat),
      validateScripts gen c i ss = (ss, pureScriptErrors c ss) := by
  intro ss
  induction ss with
  | nil => intro _ i; simp [validateScripts, pureScriptErrors]
  | cons hd tl ih =>
    intro h i
    have hhd : hd.Name ≠ "" := h hd (by simp)
    have htl : ∀ s ∈ tl, s.Name ≠ "" := fun s hsm => h s (by simp [hsm])
    simp [validateScripts, pureScriptErrors, scriptValidate_of_named (gen i) c hd hhd,
      ih htl (i + 1)]

/-- On a configuration with no anonymous entity, Validate leaves the
instance unchanged and its error list does not depend on the observed
pointers. -/
theorem Configuration.Validate_of_noAnonymous (gen : Nat → String) (c : Configuration)
    (h : NoAnonymous c) :
    Configuration.Validate gen c =
      (c, c.ValidateTaskDefinitionExists.toList ++ c.ValidateFileDefinitionExists.toList
        ++ pureTaskErrors c.Task ++ pureFileErrors c.File ++ pureScriptErrors c c.Script) := by
  obtain ⟨ht, hs, hf⟩ := h
  obtain ⟨n, d, a, li, v, ts, ss, fs⟩ := c
  simp only [Configuration.Validate,
    validateTasks_of_named gen ts ht 0,
    validateFiles_of_typed gen fs hf,
    validateScripts_of_named gen _ ss hs]

end EmitsConfiguration

namespace EmitsConfiguration

/-- Claim C1 (counterexample): validating a configuration whose single
task is anonymous assigns it a placeholder name, so the second Validate
run on the same instance no longer reports the missing-name error: the
two runs return different error lists. -/
theorem C1_counterexample_second_run_differs :
    (Configuration.Validate demoGen (Configuration.Validate demoGen demoAnonTask).1).2
      ≠ (Configuration.Validate demoGen demoAnonTask).2 := by
  decide

/-- Claim C1 (amended): on a configuration none of whose entities is
anonymous, Validate mutates nothing, its error list is independent of
the observed pointers, and a second run returns the same errors. -/
theorem C1_amended_revalidation_stable (gen gen' : Nat → String) (c : Configuration)
    (h : NoAnonymous c) :
    (Configuration.Validate gen' (Configuration.Validate gen c).1).2
        = (Configuration.Validate gen c).2
    ∧ (Configuration.Validate gen c).1 = c := by
  have h1 := Configuration.Validate_of_noAnonymous gen c h
  have h2 := Configuration.Validate_of_noAnonymous gen' c h
  refine ⟨?_, by rw [h1]⟩
  rw [h1]
  simp [h2]

/-- Witness for C1's amended statement on the valid demo configuration. -/
theorem C1_witness :
    NoAnonymous demoValid
    ∧ (Configuration.Validate demoGen (Configuration.Validate demoGen demoValid).1).2
        = (Configuration.Validate demoGen demoValid).2 :=
  ⟨⟨by decide, by decide, by decide⟩,
    (C1_amended_revalidation_stable demoGen demoGen demoValid
      ⟨by decide, by decide, by decide⟩).1⟩

/-- The task loop only assigns placeholder names to anonymous tasks:
pointwise, paths are unchanged and non-empty names are kept. -/
theorem validateTasks_frame (gen : Nat → String) :
    ∀ (ts : List Task) (i : Nat),
      List.Forall₂ (fun t t' => t'.Path = t.Path ∧ (t.Name ≠ "" → t'.Name = t.Name))
        ts (validateTasks gen i ts).1 := by
  intro ts
  induction ts with
  | nil => intro i; exact List.Forall₂.nil
  | cons hd tl ih =>
    intro i
    refine List.Forall₂.cons ⟨?_, ?_⟩ (ih (i + 1))
    · by_cases hn : hd.Name.length = 0 <;> simp [Task.Validate, hn]
    · intro hne
      have hn : ¬ hd.Name.length = 0 := by simpa [string_length_zero_iff] using hne
      simp [Task.Validate, hn]

/-- The file loop only assigns placeholder type labels to files without
one: pointwise, parse and modify are unchanged and non-empty type lists
are kept. -/
theorem validateFiles_frame (gen : Nat → String) :
    ∀ (fs : List File) (i : Nat),
      List.Forall₂ (fun f f' => f'.Parse = f.Parse ∧ f'.Modify = f.Modify
          ∧ (f.Typ ≠ [] → f'.Typ = f.Typ))
        fs (validateFiles gen i fs).1 := by
  intro fs
  induction fs with
  | nil => intro i; exact List.Forall₂.nil
  | cons hd tl ih =>
    intro i
    refine List.Forall₂.cons ⟨?_, ?_, ?_⟩ (ih (i + 1))
    · by_cases hn : hd.Typ.length = 0 <;> simp [File.Validate, hn]
    · by_cases hn : hd.Typ.length = 0 <;> simp [File.Validate, hn]
    · intro hne
      have hn : ¬ hd.Typ.length = 0 := by simpa [List.length_eq_zero] using hne
      simp [File.Validate, hn]

/-- The script loop only assigns placeholder names to anonymous
scripts: pointwise, reference lists are unchanged and non-empty names
are kept. -/
theorem validateScripts_frame (gen : Nat → String) (c : Configuration) :
    ∀ (ss : List Script) (i : Nat),
      List.Forall₂ (fun s s' => s'.Task = s.Task ∧ (s.Name ≠ "" → s'.Name = s.Name))
        ss (validateScripts gen c i ss).1 := by
  intro ss
  induction ss with
  | nil => intro i; exact List.Forall₂.nil
  | cons hd tl ih =>
    intro i
    refine List.Forall₂.cons ⟨?_, ?_⟩ (ih (i + 1))
    · by_cases hn : hd.Name.length = 0 <;> simp [Script.Validate, hn]
    · intro hne
      have hn : ¬ hd.Name.length = 0 := by simpa [string_length_zero_iff] using hne
      simp [Script.Validate, hn]

/-- Claim C7: Validate leaves every metadata field unchanged, keeps the
length and order of the three entity sequences, and pointwise changes
at most an empty Task name, an empty Script name or an empty File type
list; all other entity fields survive untouched. -/
theorem C7_validate_frame (gen : Nat → String) (c : Configuration) :
    ((Configuration.Validate gen c).1).Name = c.Name
    ∧ ((Configuration.Validate gen c).1).Description = c.Description
    ∧ ((Configuration.Validate gen c).1).Author = c.Author
    ∧ ((Configuration.Validate gen c).1).License = c.License
    ∧ ((Configuration.Validate gen c).1).Version = c.Version
    ∧ ((Configuration.Validate gen c).1).Task.length = c.Task.length
    ∧ ((Configuration.Validate gen c).1).Script.length = c.Script.length
    ∧ ((Configuration.Validate gen c).1).File.length = c.File.length
    ∧ List.Forall₂ (fun t t' => t'.Path = t.Path ∧ (t.Name ≠ "" → t'.Name = t.Name))
        c.Task ((Configuration.Validate gen c).1).Task
    ∧ List.Forall₂ (fun s s' => s'.Task = s.Task ∧ (s.Name ≠ "" → s'.Name = s.Name))
        c.Script ((Configuration.Validate gen c).1).Script
    ∧ List.Forall₂ (fun f f' => f'.Parse = f.Parse ∧ f'.Modify = f.Modify
          ∧ (f.Typ ≠ [] → f'.Typ = f.Typ))
        c.File ((Configuration.Validate gen c).1).File := by
  have hT := validateTasks_frame gen c.Task 0
  have hF := validateFiles_frame gen c.File c.Task.length
  have hS := validateScripts_frame gen
    { c with Task := (validateTasks gen 0 c.Task).1
           , File := (validateFiles gen c.Task.length c.File).1 }
    c.Script (c.Task.length + c.File.length)
  exact ⟨rfl, rfl, rfl, rfl, rfl, hT.length_eq.symm, hS.length_eq.symm, hF.length_eq.symm,
    hT, hS, hF⟩

end EmitsConfiguration

namespace EmitsConfiguration

/-- A successful linear search returns a matching element together with
a prefix of non-matching elements: the first match in sequence order. -/
theorem find?_first_decomp {α : Type} (p : α → Bool) :
    ∀ (l : List α) (x : α), l.find? p = some x →
      p x = true ∧ ∃ l1 l2, l = l1 ++ x :: l2 ∧ ∀ y ∈ l1, p y = false := by
  intro l
  induction l with
  | nil => intro x h; simp [List.find?] at h
  | cons hd tl ih =>
    intro x h
    by_cases hp : p hd
    · rw [List.find?_cons_of_pos _ hp] at h
      injection h with h'
      subst h'
      exact ⟨hp, [], tl, rfl, by simp⟩
    · rw [List.find?_cons_of_neg _ hp] at h
      obtain ⟨hx, l1, l2, heq, hall⟩ := ih x h
      refine ⟨hx, hd :: l1, l2, by simp [heq], ?_⟩
      intro y hy
      rcases List.mem_cons.mp hy with rfl | hy'
      · simpa using hp
      · exact hall y hy'

/-- Claim C9: FindTask is a first-match linear scan under exact string
equality, returning none exactly when no task matches, and the found
task is preceded only by non-matching tasks; FindScript behaves
identically over the script sequence. -/
theorem C9_lookup_services (c : Configuration) (name : String) :
    ((c.FindTask name = none ↔ ∀ t ∈ c.Task, t.Name ≠ name)
      ∧ (∀ t, c.FindTask name = some t → t.Name = name
          ∧ ∃ l1 l2, c.Task = l1 ++ t :: l2 ∧ ∀ u ∈ l1, u.Name ≠ name))
    ∧ ((c.FindScript name = none ↔ ∀ s ∈ c.Script, s.Name ≠ name)
      ∧ (∀ s, c.FindScript name = some s → s.Name = name
          ∧ ∃ l1 l2, c.Script = l1 ++ s :: l2 ∧ ∀ u ∈ l1, u.Name ≠ name)) := by
  constructor
  · constructor
    · simp [Configuration.FindTask, List.find?_eq_none]
    · intro t ht
      obtain ⟨hx, l1, l2, heq, hall⟩ := find?_first_decomp _ _ t ht
      exact ⟨by simpa using hx, l1, l2, heq, fun u hu => by simpa using hall u hu⟩
  · constructor
    · simp [Configuration.FindScript, List.find?_eq_none]
    · intro s hs
      obtain ⟨hx, l1, l2, heq, hall⟩ := find?_first_decomp _ _ s hs
      exact ⟨by simpa using hx, l1, l2, heq, fun u hu => by simpa using hall u hu⟩

/-- Witness for C9 at concrete configurations and names. -/
theorem C9_witness :
    demoTaskA.FindTask "b" = none
    ∧ ({ Name := "s", Task := ["t"] } : Script).Name = "s" :=
  ⟨(C9_lookup_services demoTaskA "b").1.1.mpr (by decide),
   ((C9_lookup_services demoValid "s").2.2 { Name := "s", Task := ["t"] } rfl).1⟩

end EmitsConfiguration

namespace EmitsConfiguration

/-- After the task loop runs with nonempty pointer tokens, every task
carries a non-empty name: kept names were non-empty, assigned
placeholders are the tokens. -/
theorem validateTasks_names_nonempty (gen : Nat → String) (hgen : ∀ n, gen n ≠ "") :
    ∀ (ts : List Task) (i : Nat) (t' : Task),
      t' ∈ (validateTasks gen i ts).1 → t'.Name ≠ "" := by
  intro ts
  induction ts with
  | nil => intro i t' h; simp [validateTasks] at h
  | cons hd tl ih =>
    intro i t' h
    have h' : t' = (Task.Validate (gen i) hd).1 ∨ t' ∈ (validateTasks gen (i + 1) tl).1 := by
      simpa [validateTasks] using h
    rcases h' with heq | hmem
    · subst heq
      by_cases hn : hd.Name.length = 0
      · simpa [Task.Validate, hn] using hgen i
      · have hne : hd.Name ≠ "" := fun he => hn (by simp [he, string_length_zero_iff])
        simpa [Task.Validate, hn] using hne
    · exact ih (i + 1) t' hmem

/-- A configuration whose tasks all carry non-empty names resolves the
empty name to nothing. -/
theorem FindTask_empty_of_names (c : Configuration) (h : ∀ t ∈ c.Task, t.Name ≠ "") :
    c.FindTask "" = none := by
  rw [Configuration.FindTask, List.find?_eq_none]
  intro t ht
  simp [h t ht]

/-- Any occurrence of an unresolvable reference in the scan produces
the corresponding unknown-task error, whatever the seen set. -/
theorem scriptTaskErrors_unknown_mem (sname r : String) (c : Configuration)
    (hfind : c.FindTask r = none) :
    ∀ (refs seen : List String), r ∈ refs →
      VError.scriptUnknownTask sname r ∈ scriptTaskErrors sname c refs seen := by
  intro refs
  induction refs with
  | nil => intro seen h; simp at h
  | cons hd tl ih =>
    intro seen h
    rcases List.mem_cons.mp h with rfl | htl
    · simp only [scriptTaskErrors]
      apply List.mem_append_left
      apply List.mem_append_right
      simp [hfind]
    · simp only [scriptTaskErrors]
      apply List.mem_append_right
      exact ih _ htl

/-- Script.Validate reports an unknown-task error, under some script
label, for any unresolvable reference it holds. -/
theorem Script.Validate_unknown_mem (ptr r : String) (c : Configuration) (s : Script)
    (hfind : c.FindTask r = none) (hr : r ∈ s.Task) :
    ∃ nm, VError.scriptUnknownTask nm r ∈ (Script.Validate ptr c s).2 := by
  have hne : s.Task ≠ [] := List.ne_nil_of_mem hr
  have hlen : ¬ s.Task.length = 0 := by simpa [List.length_eq_zero] using hne
  by_cases hn : s.Name.length = 0
  · refine ⟨ptr, ?_⟩
    have hval : (Script.Validate ptr c s).2
        = [VError.scriptMissingName ptr] ++ scriptTaskErrors ptr c s.Task [] := by
      simp [Script.Validate, scriptBodyErrors, hn, hlen]
    rw [hval]
    exact List.mem_append_right _ (scriptTaskErrors_unknown_mem ptr r c hfind s.Task [] hr)
  · refine ⟨s.Name, ?_⟩
    have hval : (Script.Validate ptr c s).2 = scriptTaskErrors s.Name c s.Task [] := by
      simp [Script.Validate, scriptBodyErrors, hn, hlen]
    rw [hval]
    exact scriptTaskErrors_unknown_mem s.Name r c hfind s.Task [] hr

/-- The script loop reports an unknown-task error for any unresolvable
reference held by any of its scripts. -/
theorem validateScripts_unknown_mem (gen : Nat → String) (c : Configuration) (r : String)
    (hfind : c.FindTask r = none) :
    ∀ (ss : List Script) (i : Nat) (s : Script), s ∈ ss → r ∈ s.Task →
      ∃ nm, VError.scriptUnknownTask nm r ∈ (validateScripts gen c i ss).2 := by
  intro ss
  induction ss with
  | nil => intro i s h; simp at h
  | cons hd tl ih =>
    intro i s hmem hr
    rcases List.mem_cons.mp hmem with rfl | htl
    · obtain ⟨nm, hm⟩ := Script.Validate_unknown_mem (gen i) r c s hfind hr
      exact ⟨nm, by simp only [validateScripts]; exact List.mem_append_left _ hm⟩
    · obtain ⟨nm, hm⟩ := ih (i + 1) s htl hr
      exact ⟨nm, by simp only [validateScripts]; exact List.mem_append_right _ hm⟩

/-- Claim C10: when a configuration holds a task with an empty name and
a script referencing the empty string, Validate reports that reference
as an unknown task definition — the task loop runs first and replaces
every empty task name with a non-empty placeholder token, so the empty
reference cannot resolve during the script loop. -/
theorem C10_empty_reference_reported_unknown (gen : Nat → String) (c : Configuration)
    (t : Task) (s : Script)
    (hgen : ∀ n, gen n ≠ "")
    (_ht : t ∈ c.Task) (_htn : t.Name = "")
    (hs : s ∈ c.Script) (hr : "" ∈ s.Task) :
    ∃ nm, VError.scriptUnknownTask nm "" ∈ (Configuration.Validate gen c).2 := by
  have hnames : ∀ t' ∈ (validateTasks gen 0 c.Task).1, t'.Name ≠ "" :=
    fun t' h' => validateTasks_names_nonempty gen hgen c.Task 0 t' h'
  have hfind : Configuration.FindTask
      { c with Task := (validateTasks gen 0 c.Task).1
             , File := (validateFiles gen c.Task.length
                 ({ c with Task := (validateTasks gen 0 c.Task).1 } : Configuration).File).1 } ""
      = none := FindTask_empty_of_names _ hnames
  obtain ⟨nm, hm⟩ := validateScripts_unknown_mem gen
    { c with Task := (validateTasks gen 0 c.Task).1
           , File := (validateFiles gen c.Task.length
               ({ c with Task := (validateTasks gen 0 c.Task).1 } : Configuration).File).1 }
    "" hfind c.Script (c.Task.length + c.File.length) s hs hr
  exact ⟨nm, List.mem_append_right _ hm⟩

end EmitsConfiguration

namespace EmitsConfiguration

/-- Lookup in the empty field list. -/
theorem getField_nil (name : String) : getField [] name = none := rfl

/-- Lookup hits a leading field with the searched name. -/
theorem getField_cons_self (name : String) (v : JValue) (fs : List (String × JValue)) :
    getField ((name, v) :: fs) name = some v := by
  simp [getField]

/-- Lookup passes over a leading field with another name. -/
theorem getField_cons_ne (name : String) (kv : String × JValue) (fs : List (String × JValue))
    (h : kv.1 ≠ name) :
    getField (kv :: fs) name = getField fs name := by
  simp only [getField]
  rw [List.find?_cons_of_neg]
  simpa using h

/-- Lookup passes over a whole prefix holding only other names. -/
theorem getField_append_skip (name : String) :
    ∀ (fs1 fs2 : List (String × JValue)), (∀ kv ∈ fs1, kv.1 ≠ name) →
      getField (fs1 ++ fs2) name = getField fs2 name := by
  intro fs1
  induction fs1 with
  | nil => intro fs2 _; rfl
  | cons kv rest ih =>
    intro fs2 h
    rw [List.cons_append, getField_cons_ne name kv _ (h kv (by simp))]
    exact ih fs2 (fun kv2 h2 => h kv2 (by simp [h2]))

/-- Lookup misses in a list holding only other names. -/
theorem getField_none (name : String) (fs : List (String × JValue))
    (h : ∀ kv ∈ fs, kv.1 ≠ name) : getField fs name = none := by
  have hs := getField_append_skip name fs [] h
  simpa using hs

/-- Every field an omitempty string block emits carries its own name. -/
theorem marshalStringField_key (n v : String) :
    ∀ kv ∈ marshalStringField n v, kv.1 = n := by
  intro kv h
  unfold marshalStringField at h
  split at h <;> simp_all

/-- Every field an omitempty bool block emits carries its own name. -/
theorem marshalBoolField_key (n : String) (b : Bool) :
    ∀ kv ∈ marshalBoolField n b, kv.1 = n := by
  intro kv h
  unfold marshalBoolField at h
  split at h <;> simp_all

/-- Every field an omitempty slice block emits carries its own name. -/
theorem marshalList_key {α : Type} (n : String) (enc : α → JValue) (xs : List α) :
    ∀ kv ∈ marshalList n enc xs, kv.1 = n := by
  intro kv h
  unfold marshalList at h
  split at h <;> simp_all

/-- Every field an omitempty pointer block emits carries its own name. -/
theorem marshalOpt_key {α : Type} (n : String) (enc : α → JValue) (o : Option α) :
    ∀ kv ∈ marshalOpt n enc o, kv.1 = n := by
  intro kv h
  rcases o with _ | a <;> simp_all [marshalOpt]

/-- Value of a string field at the front of a document rest of which
avoids its name. -/
theorem getField_stringField (n v : String) (rest : List (String × JValue))
    (h : ∀ kv ∈ rest, kv.1 ≠ n) :
    getField (marshalStringField n v ++ rest) n
      = if v = "" then none else some (JValue.str v) := by
  unfold marshalStringField
  by_cases hv : v = ""
  · rw [if_pos hv, List.nil_append, getField_none n rest h, if_pos hv]
  · rw [if_neg hv, List.singleton_append, getField_cons_self, if_neg hv]

/-- Value of a bool field at the front of a document rest of which
avoids its name. -/
theorem getField_boolField (n : String) (b : Bool) (rest : List (String × JValue))
    (h : ∀ kv ∈ rest, kv.1 ≠ n) :
    getField (marshalBoolField n b ++ rest) n
      = if b then some (JValue.boolean b) else none := by
  unfold marshalBoolField
  cases b
  · simpa using getField_none n rest h
  · simpa using getField_cons_self n (JValue.boolean true) rest

/-- Value of a slice field at the front of a document rest of which
avoids its name. -/
theorem getField_listField {α : Type} (n : String) (enc : α → JValue) (xs : List α)
    (rest : List (String × JValue)) (h : ∀ kv ∈ rest, kv.1 ≠ n) :
    getField (marshalList n enc xs ++ rest) n
      = if xs.length = 0 then none else some (JValue.arr (xs.map enc)) := by
  unfold marshalList
  by_cases hl : xs.length = 0
  · rw [if_pos hl, List.nil_append, getField_none n rest h, if_pos hl]
  · rw [if_neg hl, List.singleton_append, getField_cons_self, if_neg hl]

/-- Value of a pointer field at the front of a document rest of which
avoids its name. -/
theorem getField_optField {α : Type} (n : String) (enc : α → JValue) (o : Option α)
    (rest : List (String × JValue)) (h : ∀ kv ∈ rest, kv.1 ≠ n) :
    getField (marshalOpt n enc o ++ rest) n = o.map enc := by
  rcases o with _ | a
  · simpa [marshalOpt] using getField_none n rest h
  · rw [marshalOpt, List.singleton_append]
    simpa using getField_cons_self n (enc a) rest

/-- Unmarshal of a string field whose stored value matches an omitempty
write of `v` recovers `v`. -/
theorem decodeStringField_of (fs : List (String × JValue)) (n v : String)
    (h : getField fs n = if v = "" then none else some (JValue.str v)) :
    decodeStringField fs n = some v := by
  unfold decodeStringField
  rw [h]
  by_cases hv : v = "" <;> simp [hv]

/-- Unmarshal of a bool field whose stored value matches an omitempty
write of `b` recovers `b`. -/
theorem decodeBoolField_of (fs : List (String × JValue)) (n : String) (b : Bool)
    (h : getField fs n = if b then some (JValue.boolean b) else none) :
    decodeBoolField fs n = some b := by
  unfold decodeBoolField
  rw [h]
  cases b <;> simp

/-- Element-wise decoding inverts element-wise encoding. -/
theorem decodeList_map_roundtrip {α : Type} (enc : α → JValue) (dec : JValue → Option α)
    (h : ∀ a, dec (enc a) = some a) : ∀ l : List α, decodeList dec (l.map enc) = some l := by
  intro l
  induction l with
  | nil => rfl
  | cons a rest ih => simp [decodeList, h, ih]

/-- Unmarshal of a slice field whose stored value matches an omitempty
write of `xs` recovers `xs` (nil and empty slices conflated). -/
theorem decodeListField_of {α : Type} (dec : JValue → Option α) (enc : α → JValue)
    (fs : List (String × JValue)) (n : String) (xs : List α)
    (h : getField fs n = if xs.length = 0 then none else some (JValue.arr (xs.map enc)))
    (hdec : ∀ a, dec (enc a) = some a) :
    decodeListField dec fs n = some xs := by
  unfold decodeListField
  rw [h]
  rcases xs with _ | ⟨x, rest⟩
  · simp
  · rw [if_neg (by simp)]
    have hd := decodeList_map_roundtrip enc dec hdec (x :: rest)
    exact hd

/-- Unmarshal of a pointer field whose stored value matches an
omitempty write of `o` recovers `o`. -/
theorem decodeOptField_of {α : Type} (dec : JValue → Option α) (enc : α → JValue)
    (fs : List (String × JValue)) (n : String) (o : Option α)
    (h : getField fs n = o.map enc) (hdec : ∀ a, dec (enc a) = some a) :
    decodeOptField dec fs n = some o := by
  unfold decodeOptField
  rw [h]
  rcases o with _ | a <;> simp [hdec]

/-- Unmarshal of the Include field: a nil or present-but-empty Include
was written as nothing and reads back nil; a non-empty one reads back
exactly. -/
theorem decodeOptListField_include (fs : List (String × JValue)) (o : Option (List String))
    (h : getField fs "include"
      = if (o.getD []).length = 0 then none
        else some (JValue.arr ((o.getD []).map JValue.str))) :
    decodeOptListField decodeStr fs "include" = some (normInclude o) := by
  rcases o with _ | xs
  · have h' : getField fs "include" = none := by simpa using h
    show decodeOptListField decodeStr fs "include" = some none
    unfold decodeOptListField
    rw [h']
  · rcases xs with _ | ⟨x, rest⟩
    · have h' : getField fs "include" = none := by simpa using h
      show decodeOptListField decodeStr fs "include" = some none
      unfold decodeOptListField
      rw [h']
    · have h' : getField fs "include"
          = some (JValue.arr (JValue.str x :: List.map JValue.str rest)) := by simpa using h
      show decodeOptListField decodeStr fs "include" = some (some (x :: rest))
      unfold decodeOptListField
      rw [h']
      have hd := decodeList_map_roundtrip JValue.str decodeStr (fun a => rfl) (x :: rest)
      simp only [List.map_cons] at hd
      show (decodeList decodeStr (JValue.str x :: List.map JValue.str rest)).map some
        = some (some (x :: rest))
      rw [hd]
      rfl

end EmitsConfiguration

namespace EmitsConfiguration

/-- A block keyed to one name avoids any other name. -/
theorem key_avoid {m n : String} (hne : m ≠ n) (block : List (String × JValue))
    (hkey : ∀ kv ∈ block, kv.1 = m) : ∀ kv ∈ block, kv.1 ≠ n :=
  fun kv h => by rw [hkey kv h]; exact hne

/-- Concatenation preserves avoidance of a name. -/
theorem avoid_append {n : String} (a b : List (String × JValue))
    (ha : ∀ kv ∈ a, kv.1 ≠ n) (hb : ∀ kv ∈ b, kv.1 ≠ n) :
    ∀ kv ∈ a ++ b, kv.1 ≠ n := by
  intro kv h
  rcases List.mem_append.mp h with h' | h'
  · exact ha kv h'
  · exact hb kv h'

/-- Element-wise decoding through a per-element normalization. -/
theorem decodeList_map_of {α : Type} (enc : α → JValue) (dec : JValue → Option α) (f : α → α)
    (h : ∀ a, dec (enc a) = some (f a)) :
    ∀ l : List α, decodeList dec (l.map enc) = some (l.map f) := by
  intro l
  induction l with
  | nil => rfl
  | cons a rest ih => simp [decodeList, h, ih]

/-- Unmarshal of a pointer field through a per-value normalization. -/
theorem decodeOptField_of_map {α : Type} (dec : JValue → Option α) (enc : α → JValue)
    (f : α → α) (fs : List (String × JValue)) (n : String) (o : Option α)
    (h : getField fs n = o.map enc) (hdec : ∀ a, dec (enc a) = some (f a)) :
    decodeOptField dec fs n = some (o.map f) := by
  unfold decodeOptField
  rw [h]
  rcases o with _ | a <;> simp [hdec]

/-- Unmarshal of a slice field through a per-element normalization. -/
theorem decodeListField_of_map {α : Type} (dec : JValue → Option α) (enc : α → JValue)
    (f : α → α) (fs : List (String × JValue)) (n : String) (xs : List α)
    (h : getField fs n = if xs.length = 0 then none else some (JValue.arr (xs.map enc)))
    (hdec : ∀ a, dec (enc a) = some (f a)) :
    decodeListField dec fs n = some (xs.map f) := by
  unfold decodeListField
  rw [h]
  rcases xs with _ | ⟨x, rest⟩
  · simp
  · rw [if_neg (by simp)]
    exact decodeList_map_of enc dec f hdec (x :: rest)

/-- Write/Load round trip on a core.CommentBlock value. -/
theorem decode_marshal_CommentBlock (b : CommentBlock) :
    decodeCommentBlock (marshalCommentBlock b) = some b := by
  have h1 : getField (marshalStringField "start" b.Start ++ marshalStringField "end" b.End) "start"
      = if b.Start = "" then none else some (JValue.str b.Start) :=
    getField_stringField "start" b.Start _
      (key_avoid (by decide) _ (marshalStringField_key "end" b.End))
  have h2 : getField (marshalStringField "start" b.Start ++ marshalStringField "end" b.End) "end"
      = if b.End = "" then none else some (JValue.str b.End) := by
    rw [getField_append_skip "end" _ _
      (key_avoid (by decide) _ (marshalStringField_key "start" b.Start))]
    simpa using getField_stringField "end" b.End [] (by simp)
  simp only [marshalCommentBlock, decodeCommentBlock]
  rw [decodeStringField_of _ _ _ h1, decodeStringField_of _ _ _ h2]
  rfl

/-- Write/Load round trip on a core.Comment value. -/
theorem decode_marshal_Comment (cm : Comment) :
    decodeComment (marshalComment cm) = some cm := by
  have h1 : getField (marshalStringField "line" cm.Line
        ++ marshalOpt "block" marshalCommentBlock cm.Block) "line"
      = if cm.Line = "" then none else some (JValue.str cm.Line) :=
    getField_stringField "line" cm.Line _
      (key_avoid (by decide) _ (marshalOpt_key "block" marshalCommentBlock cm.Block))
  have h2 : getField (marshalStringField "line" cm.Line
        ++ marshalOpt "block" marshalCommentBlock cm.Block) "block"
      = cm.Block.map marshalCommentBlock := by
    rw [getField_append_skip "block" _ _
      (key_avoid (by decide) _ (marshalStringField_key "line" cm.Line))]
    simpa using getField_optField "block" marshalCommentBlock cm.Block [] (by simp)
  simp only [marshalComment, decodeComment]
  rw [decodeStringField_of _ _ _ h1,
    decodeOptField_of decodeCommentBlock marshalCommentBlock _ _ _ h2 decode_marshal_CommentBlock]
  rfl

/-- Write/Load round trip on a Parse value. -/
theorem decode_marshal_Parse (p : Parse) :
    decodeParse (marshalParse p) = some p := by
  have h1 : getField (marshalOpt "comment" marshalComment p.Comment
        ++ marshalBoolField "source" p.Source) "comment"
      = p.Comment.map marshalComment :=
    getField_optField "comment" marshalComment p.Comment _
      (key_avoid (by decide) _ (marshalBoolField_key "source" p.Source))
  have h2 : getField (marshalOpt "comment" marshalComment p.Comment
        ++ marshalBoolField "source" p.Source) "source"
      = if p.Source then some (JValue.boolean p.Source) else none := by
    rw [getField_append_skip "source" _ _
      (key_avoid (by decide) _ (marshalOpt_key "comment" marshalComment p.Comment))]
    simpa using getField_boolField "source" p.Source [] (by simp)
  simp only [marshalParse, decodeParse]
  rw [decodeOptField_of decodeComment marshalComment _ _ _ h1 decode_marshal_Comment,
    decodeBoolField_of _ _ _ h2]
  rfl

/-- Write/Load round trip on a Plugin value. -/
theorem decode_marshal_Plugin (pl : Plugin) :
    decodePlugin (marshalPlugin pl) = some pl := by
  have h1 : getField (marshalStringField "path" pl.Path) "path"
      = if pl.Path = "" then none else some (JValue.str pl.Path) := by
    simpa using getField_stringField "path" pl.Path [] (by simp)
  simp only [marshalPlugin, decodePlugin]
  rw [decodeStringField_of _ _ _ h1]
  rfl

/-- Write/Load round trip on a core.RegularExpression value. -/
theorem decode_marshal_Regex (r : RegularExpression) :
    decodeRegex (marshalRegex r) = some r := by
  have h1 : getField (marshalStringField "find" r.Find
        ++ marshalStringField "replace" r.Replace) "find"
      = if r.Find = "" then none else some (JValue.str r.Find) :=
    getField_stringField "find" r.Find _
      (key_avoid (by decide) _ (marshalStringField_key "replace" r.Replace))
  have h2 : getField (marshalStringField "find" r.Find
        ++ marshalStringField "replace" r.Replace) "replace"
      = if r.Replace = "" then none else some (JValue.str r.Replace) := by
    rw [getField_append_skip "replace" _ _
      (key_avoid (by decide) _ (marshalStringField_key "find" r.Find))]
    simpa using getField_stringField "replace" r.Replace [] (by simp)
  simp only [marshalRegex, decodeRegex]
  rw [decodeStringField_of _ _ _ h1, decodeStringField_of _ _ _ h2]
  rfl

/-- Write/Load round trip on a Modify value. -/
theorem decode_marshal_Modify (m : Modify) :
    decodeModify (marshalModify m) = some m := by
  have h1 : getField (marshalList "plugin" marshalPlugin m.Plugin
        ++ marshalList "regex" marshalRegex m.Regex) "plugin"
      = if m.Plugin.length = 0 then none
        else some (JValue.arr (m.Plugin.map marshalPlugin)) :=
    getField_listField "plugin" marshalPlugin m.Plugin _
      (key_avoid (by decide) _ (marshalList_key "regex" marshalRegex m.Regex))
  have h2 : getField (marshalList "plugin" marshalPlugin m.Plugin
        ++ marshalList "regex" marshalRegex m.Regex) "regex"
      = if m.Regex.length = 0 then none
        else some (JValue.arr (m.Regex.map marshalRegex)) := by
    rw [getField_append_skip "regex" _ _
      (key_avoid (by decide) _ (marshalList_key "plugin" marshalPlugin m.Plugin))]
    simpa using getField_listField "regex" marshalRegex m.Regex [] (by simp)
  simp only [marshalModify, decodeModify]
  rw [decodeListField_of decodePlugin marshalPlugin _ _ _ h1 decode_marshal_Plugin,
    decodeListField_of decodeRegex marshalRegex _ _ _ h2 decode_marshal_Regex]
  rfl

/-- Write/Load round trip on a File value. -/
theorem decode_marshal_File (f : File) :
    decodeFile (marshalFile f) = some f := by
  have h1 : getField (marshalList "type" JValue.str f.Typ
        ++ (marshalOpt "parse" marshalParse f.Parse
          ++ marshalOpt "modify" marshalModify f.Modify)) "type"
      = if f.Typ.length = 0 then none else some (JValue.arr (f.Typ.map JValue.str)) :=
    getField_listField "type" JValue.str f.Typ _
      (avoid_append _ _
        (key_avoid (by decide) _ (marshalOpt_key "parse" marshalParse f.Parse))
        (key_avoid (by decide) _ (marshalOpt_key "modify" marshalModify f.Modify)))
  have h2 : getField (marshalList "type" JValue.str f.Typ
        ++ (marshalOpt "parse" marshalParse f.Parse
          ++ marshalOpt "modify" marshalModify f.Modify)) "parse"
      = f.Parse.map marshalParse := by
    rw [getField_append_skip "parse" _ _
      (key_avoid (by decide) _ (marshalList_key "type" JValue.str f.Typ))]
    exact getField_optField "parse" marshalParse f.Parse _
      (key_avoid (by decide) _ (marshalOpt_key "modify" marshalModify f.Modify))
  have h3 : getField (marshalList "type" JValue.str f.Typ
        ++ (marshalOpt "parse" marshalParse f.Parse
          ++ marshalOpt "modify" marshalModify f.Modify)) "modify"
      = f.Modify.map marshalModify := by
    rw [getField_append_skip "modify" _ _
      (key_avoid (by decide) _ (marshalList_key "type" JValue.str f.Typ))]
    rw [getField_append_skip "modify" _ _
      (key_avoid (by decide) _ (marshalOpt_key "parse" marshalParse f.Parse))]
    simpa using getField_optField "modify" marshalModify f.Modify [] (by simp)
  simp only [marshalFile, decodeFile]
  rw [decodeListField_of decodeStr JValue.str _ _ _ h1 (fun a => rfl),
    decodeOptField_of decodeParse marshalParse _ _ _ h2 decode_marshal_Parse,
    decodeOptField_of decodeModify marshalModify _ _ _ h3 decode_marshal_Modify]
  rfl

/-- Write/Load round trip on a Path value: everything survives except a
present-but-empty Include, which reads back as nil. -/
theorem decode_marshal_Path (p : Path) :
    decodePath (marshalPath p) = some (normPath p) := by
  have h1 : getField (marshalList "include" JValue.str (p.Include.getD [])
        ++ marshalList "exclude" JValue.str p.Exclude) "include"
      = if (p.Include.getD []).length = 0 then none
        else some (JValue.arr ((p.Include.getD []).map JValue.str)) :=
    getField_listField "include" JValue.str (p.Include.getD []) _
      (key_avoid (by decide) _ (marshalList_key "exclude" JValue.str p.Exclude))
  have h2 : getField (marshalList "include" JValue.str (p.Include.getD [])
        ++ marshalList "exclude" JValue.str p.Exclude) "exclude"
      = if p.Exclude.length = 0 then none
        else some (JValue.arr (p.Exclude.map JValue.str)) := by
    rw [getField_append_skip "exclude" _ _
      (key_avoid (by decide) _ (marshalList_key "include" JValue.str (p.Include.getD [])))]
    simpa using getField_listField "exclude" JValue.str p.Exclude [] (by simp)
  simp only [marshalPath, decodePath]
  rw [decodeOptListField_include _ p.Include h1,
    decodeListField_of decodeStr JValue.str _ _ _ h2 (fun a => rfl)]
  rfl

/-- Write/Load round trip on a Task value, through the Path
normalization. -/
theorem decode_marshal_Task (t : Task) :
    decodeTask (marshalTask t) = some (normTask t) := by
  have h1 : getField (marshalStringField "name" t.Name
        ++ marshalOpt "path" marshalPath t.Path) "name"
      = if t.Name = "" then none else some (JValue.str t.Name) :=
    getField_stringField "name" t.Name _
      (key_avoid (by decide) _ (marshalOpt_key "path" marshalPath t.Path))
  have h2 : getField (marshalStringField "name" t.Name
        ++ marshalOpt "path" marshalPath t.Path) "path"
      = t.Path.map marshalPath := by
    rw [getField_append_skip "path" _ _
      (key_avoid (by decide) _ (marshalStringField_key "name" t.Name))]
    simpa using getField_optField "path" marshalPath t.Path [] (by simp)
  simp only [marshalTask, decodeTask]
  rw [decodeStringField_of _ _ _ h1,
    decodeOptField_of_map decodePath marshalPath normPath _ _ _ h2 decode_marshal_Path]
  rfl

/-- Write/Load round trip on a Script value. -/
theorem decode_marshal_Script (s : Script) :
    decodeScript (marshalScript s) = some s := by
  have h1 : getField (marshalStringField "name" s.Name
        ++ marshalList "task" JValue.str s.Task) "name"
      = if s.Name = "" then none else some (JValue.str s.Name) :=
    getField_stringField "name" s.Name _
      (key_avoid (by decide) _ (marshalList_key "task" JValue.str s.Task))
  have h2 : getField (marshalStringField "name" s.Name
        ++ marshalList "task" JValue.str s.Task) "task"
      = if s.Task.length = 0 then none
        else some (JValue.arr (s.Task.map JValue.str)) := by
    rw [getField_append_skip "task" _ _
      (key_avoid (by decide) _ (marshalStringField_key "name" s.Name))]
    simpa using getField_listField "task" JValue.str s.Task [] (by simp)
  simp only [marshalScript, decodeScript]
  rw [decodeStringField_of _ _ _ h1,
    decodeListField_of decodeStr JValue.str _ _ _ h2 (fun a => rfl)]
  rfl

end EmitsConfiguration

namespace EmitsConfiguration

/-- Write/Load round trip on the whole document, through the Task/Path
normalization. -/
theorem decode_marshal_Configuration (c : Configuration) :
    decodeConfiguration (marshalConfiguration c) = some (normConfiguration c) := by
  have kN := marshalStringField_key "name" c.Name
  have kD := marshalStringField_key "description" c.Description
  have kA := marshalStringField_key "author" c.Author
  have kL := marshalStringField_key "license" c.License
  have kV := marshalStringField_key "version" c.Version
  have kT := marshalList_key "task" marshalTask c.Task
  have kS := marshalList_key "script" marshalScript c.Script
  have kF := marshalList_key "file" marshalFile c.File
  have hname : getField (marshalStringField "name" c.Name
        ++ (marshalStringField "description" c.Description
          ++ (marshalStringField "author" c.Author
            ++ (marshalStringField "license" c.License
              ++ (marshalStringField "version" c.Version
                ++ (marshalList "task" marshalTask c.Task
                  ++ (marshalList "script" marshalScript c.Script
                    ++ marshalList "file" marshalFile c.File))))))) "name"
      = if c.Name = "" then none else some (JValue.str c.Name) :=
    getField_stringField "name" c.Name _
      (avoid_append _ _ (key_avoid (by decide) _ kD)
        (avoid_append _ _ (key_avoid (by decide) _ kA)
          (avoid_append _ _ (key_avoid (by decide) _ kL)
            (avoid_append _ _ (key_avoid (by decide) _ kV)
              (avoid_append _ _ (key_avoid (by decide) _ kT)
                (avoid_append _ _ (key_avoid (by decide) _ kS)
                  (key_avoid (by decide) _ kF)))))))
  have hdesc : getField (marshalStringField "name" c.Name
        ++ (marshalStringField "description" c.Description
          ++ (marshalStringField "author" c.Author
            ++ (marshalStringField "license" c.License
              ++ (marshalStringField "version" c.Version
                ++ (marshalList "task" marshalTask c.Task
                  ++ (marshalList "script" marshalScript c.Script
                    ++ marshalList "file" marshalFile c.File))))))) "description"
      = if c.Description = "" then none else some (JValue.str c.Description) := by
    rw [getField_append_skip "description" _ _ (key_avoid (by decide) _ kN)]
    exact getField_stringField "description" c.Description _
      (avoid_append _ _ (key_avoid (by decide) _ kA)
        (avoid_append _ _ (key_avoid (by decide) _ kL)
          (avoid_append _ _ (key_avoid (by decide) _ kV)
            (avoid_append _ _ (key_avoid (by decide) _ kT)
              (avoid_append _ _ (key_avoid (by decide) _ kS)
                (key_avoid (by decide) _ kF))))))
  have hauthor : getField (marshalStringField "name" c.Name
        ++ (marshalStringField "description" c.Description
          ++ (marshalStringField "author" c.Author
            ++ (marshalStringField "license" c.License
              ++ (marshalStringField "version" c.Version
                ++ (marshalList "task" marshalTask c.Task
                  ++ (marshalList "script" marshalScript c.Script
                    ++ marshalList "file" marshalFile c.File))))))) "author"
      = if c.Author = "" then none else some (JValue.str c.Author) := by
    rw [getField_append_skip "author" _ _ (key_avoid (by decide) _ kN)]
    rw [getField_append_skip "author" _ _ (key_avoid (by decide) _ kD)]
    exact getField_stringField "author" c.Author _
      (avoid_append _ _ (key_avoid (by decide) _ kL)
        (avoid_append _ _ (key_avoid (by decide) _ kV)
          (avoid_append _ _ (key_avoid (by decide) _ kT)
            (avoid_append _ _ (key_avoid (by decide) _ kS)
              (key_avoid (by decide) _ kF)))))
  have hlicense : getField (marshalStringField "name" c.Name
        ++ (marshalStringField "description" c.Description
          ++ (marshalStringField "author" c.Author
            ++ (marshalStringField "license" c.License
              ++ (marshalStringField "version" c.Version
                ++ (marshalList "task" marshalTask c.Task
                  ++ (marshalList "script" marshalScript c.Script
                    ++ marshalList "file" marshalFile c.File))))))) "license"
      = if c.License = "" then none else some (JValue.str c.License) := by
    rw [getField_append_skip "license" _ _ (key_avoid (by decide) _ kN)]
    rw [getField_append_skip "license" _ _ (key_avoid (by decide) _ kD)]
    rw [getField_append_skip "license" _ _ (key_avoid (by decide) _ kA)]
    exact getField_stringField "license" c.License _
      (avoid_append _ _ (key_avoid (by decide) _ kV)
        (avoid_append _ _ (key_avoid (by decide) _ kT)
          (avoid_append _ _ (key_avoid (by decide) _ kS)
            (key_avoid (by decide) _ kF))))
  have hversion : getField (marshalStringField "name" c.Name
        ++ (marshalStringField "description" c.Description
          ++ (marshalStringField "author" c.Author
            ++ (marshalStringField "license" c.License
              ++ (marshalStringField "version" c.Version
                ++ (marshalList "task" marshalTask c.Task
                  ++ (marshalList "script" marshalScript c.Script
                    ++ marshalList "file" marshalFile c.File))))))) "version"
      = if c.Version = "" then none else some (JValue.str c.Version) := by
    rw [getField_append_skip "version" _ _ (key_avoid (by decide) _ kN)]
    rw [getField_append_skip "version" _ _ (key_avoid (by decide) _ kD)]
    rw [getField_append_skip "version" _ _ (key_avoid (by decide) _ kA)]
    rw [getField_append_skip "version" _ _ (key_avoid (by decide) _ kL)]
    exact getField_stringField "version" c.Version _
      (avoid_append _ _ (key_avoid (by decide) _ kT)
        (avoid_append _ _ (key_avoid (by decide) _ kS)
          (key_avoid (by decide) _ kF)))
  have htask : getField (marshalStringField "name" c.Name
        ++ (marshalStringField "description" c.Description
          ++ (marshalStringField "author" c.Author
            ++ (marshalStringField "license" c.License
              ++ (marshalStringField "version" c.Version
                ++ (marshalList "task" marshalTask c.Task
                  ++ (marshalList "script" marshalScript c.Script
                    ++ marshalList "file" marshalFile c.File))))))) "task"
      = if c.Task.length = 0 then none
        else some (JValue.arr (c.Task.map marshalTask)) := by
    rw [getField_append_skip "task" _ _ (key_avoid (by decide) _ kN)]
    rw [getField_append_skip "task" _ _ (key_avoid (by decide) _ kD)]
    rw [getField_append_skip "task" _ _ (key_avoid (by decide) _ kA)]
    rw [getField_append_skip "task" _ _ (key_avoid (by decide) _ kL)]
    rw [getField_append_skip "task" _ _ (key_avoid (by decide) _ kV)]
    exact getField_listField "task" marshalTask c.Task _
      (avoid_append _ _ (key_avoid (by decide) _ kS) (key_avoid (by decide) _ kF))
  have hscript : getField (marshalStringField "name" c.Name
        ++ (marshalStringField "description" c.Description
          ++ (marshalStringField "author" c.Author
            ++ (marshalStringField "license" c.License
              ++ (marshalStringField "version" c.Version
                ++ (marshalList "task" marshalTask c.Task
                  ++ (marshalList "script" marshalScript c.Script
                    ++ marshalList "file" marshalFile c.File))))))) "script"
      = if c.Script.length = 0 then none
        else some (JValue.arr (c.Script.map marshalScript)) := by
    rw [getField_append_skip "script" _ _ (key_avoid (by decide) _ kN)]
    rw [getField_append_skip "script" _ _ (key_avoid (by decide) _ kD)]
    rw [getField_append_skip "script" _ _ (key_avoid (by decide) _ kA)]
    rw [getField_append_skip "script" _ _ (key_avoid (by decide) _ kL)]
    rw [getField_append_skip "script" _ _ (key_avoid (by decide) _ kV)]
    rw [getField_append_skip "script" _ _ (key_avoid (by decide) _ kT)]
    exact getField_listField "script" marshalScript c.Script _
      (key_avoid (by decide) _ kF)
  have hfile : getField (marshalStringField "name" c.Name
        ++ (marshalStringField "description" c.Description
          ++ (marshalStringField "author" c.Author
            ++ (marshalStringField "license" c.License
              ++ (marshalStringField "version" c.Version
                ++ (marshalList "task" marshalTask c.Task
                  ++ (marshalList "script" marshalScript c.Script
                    ++ marshalList "file" marshalFile c.File))))))) "file"
      = if c.File.length = 0 then none
        else some (JValue.arr (c.File.map marshalFile)) := by
    rw [getField_append_skip "file" _ _ (key_avoid (by decide) _ kN)]
    rw [getField_append_skip "file" _ _ (key_avoid (by decide) _ kD)]
    rw [getField_append_skip "file" _ _ (key_avoid (by decide) _ kA)]
    rw [getField_append_skip "file" _ _ (key_avoid (by decide) _ kL)]
    rw [getField_append_skip "file" _ _ (key_avoid (by decide) _ kV)]
    rw [getField_append_skip "file" _ _ (key_avoid (by decide) _ kT)]
    rw [getField_append_skip "file" _ _ (key_avoid (by decide) _ kS)]
    simpa using getField_listField "file" marshalFile c.File [] (by simp)
  simp only [marshalConfiguration, decodeConfiguration]
  rw [decodeStringField_of _ _ _ hname,
    decodeStringField_of _ _ _ hdesc,
    decodeStringField_of _ _ _ hauthor,
    decodeStringField_of _ _ _ hlicense,
    decodeStringField_of _ _ _ hversion,
    decodeListField_of_map decodeTask marshalTask normTask _ _ _ htask decode_marshal_Task,
    decodeListField_of decodeScript marshalScript _ _ _ hscript decode_marshal_Script,
    decodeListField_of decodeFile marshalFile _ _ _ hfile decode_marshal_File]
  rfl

/-- The round trip normalization agrees with the original on every
non-empty field. -/
theorem roundTripAgrees_norm_tasks (ts : List Task) :
    List.Forall₂ (fun t t' => t'.Name = t.Name
      ∧ ∀ p, t.Path = some p → ∃ p', t'.Path = some p'
          ∧ p'.Exclude = p.Exclude
          ∧ ∀ l, p.Include = some l → l ≠ [] → p'.Include = some l)
      ts (ts.map normTask) := by
  induction ts with
  | nil => exact List.Forall₂.nil
  | cons t rest ih =>
    refine List.Forall₂.cons ⟨rfl, ?_⟩ ih
    intro p hp
    refine ⟨normPath p, by simp [normTask, hp], rfl, ?_⟩
    intro l hl hlne
    rcases l with _ | ⟨x, xs⟩
    · exact absurd rfl hlne
    · show normInclude p.Include = some (x :: xs)
      rw [hl]
      rfl

/-- Claim C8: for a configuration validating with zero errors, writing
the document and loading it into a fresh instance reproduces every
non-empty field exactly — all metadata, the script and file sequences,
each task name, and each present path's excludes and non-empty
includes. -/
theorem C8_write_load_roundtrip (gen : Nat → String) (c : Configuration)
    (_hvalid : (Configuration.Validate gen c).2 = []) :
    ∃ c', decodeConfiguration (marshalConfiguration c) = some c'
      ∧ RoundTripAgrees c c' := by
  refine ⟨normConfiguration c, decode_marshal_Configuration c,
    rfl, rfl, rfl, rfl, rfl, rfl, rfl, ?_⟩
  exact roundTripAgrees_norm_tasks c.Task

/-- Witness for C8 on the valid demo configuration. -/
theorem C8_witness :
    (Configuration.Validate (fun _ => "") demoValid).2 = []
    ∧ ∃ c', decodeConfiguration (marshalConfiguration demoValid) = some c'
        ∧ RoundTripAgrees demoValid c' :=
  ⟨rfl, C8_write_load_roundtrip (fun _ => "") demoValid rfl⟩

end EmitsConfiguration

namespace EmitsConfiguration

/-- Every token of the demo pointer stream is non-empty, as every
Go-formatted pointer is. -/
theorem demoGen_ne_empty : ∀ n, demoGen n ≠ "" := by
  intro n h
  have hl : ("0xc0000" ++ toString n).length = ("" : String).length :=
    congrArg String.length h
  rw [String.length_append] at hl
  have h7 : ("0xc0000" : String).length = 7 := rfl
  have h0 : ("" : String).length = 0 := rfl
  rw [h7, h0] at hl
  omega

/-- Witness for C10 on a concrete configuration with an anonymous task
and a script referencing the empty string. -/
theorem C10_witness :
    (∀ n, demoGen n ≠ "")
    ∧ ∃ nm, VError.scriptUnknownTask nm "" ∈ (Configuration.Validate demoGen demoAnonRef).2 :=
  ⟨demoGen_ne_empty,
    C10_empty_reference_reported_unknown demoGen demoAnonRef
      { Name := "", Path := some { Include := some ["*"], Exclude := [] } }
      { Name := "x", Task := [""] }
      demoGen_ne_empty (by decide) rfl (by decide) (by decide)⟩

end EmitsConfiguration
